import Mathlib

/-!
Verification of the normalization and quality-control (QC) core of
`coding_app_revised.py`: the `COLUMNS`/`ENUMS` schema tables, the
`normalise_row` normalizer and the `apply_qc_rules` consistency engine.

Records are embedded as association lists from field names to string
values (the Python code manipulates `dict`s of strings); `dget`/`dset`
mirror `dict.get` / `dict.__setitem__` (insertion-order preserving),
and `pyStrip`, `pyUpper`, `pyLower`, `strContains`, `joinSemi` embed
the Python string operations `str.strip`, `str.upper`, `str.lower`,
the `in` substring test and `"; ".join`.
-/

/-- A coding record: an association list of field name to string value,
mirroring a Python `dict` of strings (keys in insertion order). -/
abbrev Rec : Type := List (String × String)

/-- Lookup in an association list, mirroring Python `dict.get` (returns
`none` when the key is absent). -/
def lookupA {α : Type} : List (String × α) → String → Option α
  | [], _ => none
  | (k', v) :: t, k => if k' = k then some v else lookupA t k

/-- Key assignment mirroring Python `d[k] = v`: replaces the value in
place when the key exists, otherwise appends the new binding. -/
def dset : Rec → String → String → Rec
  | [], k, v => [(k, v)]
  | (k', v') :: t, k, v => if k' = k then (k, v) :: t else (k', v') :: dset t k v

/-- Embedding of Python `str.strip()` on character lists: drop whitespace
from both ends. -/
def pyStripL (l : List Char) : List Char :=
  ((l.dropWhile Char.isWhitespace).reverse.dropWhile Char.isWhitespace).reverse

/-- Embedding of Python `str.strip()`. -/
def pyStrip (s : String) : String := ⟨pyStripL s.data⟩

/-- Embedding of Python `str.upper()` (ASCII, as used by the code on
short tokens such as "na"). -/
def pyUpper (s : String) : String := ⟨s.data.map Char.toUpper⟩

/-- Embedding of Python `str.lower()` (ASCII). -/
def pyLower (s : String) : String := ⟨s.data.map Char.toLower⟩

/-- Substring test on character lists: `infixB needle hay` is true iff
`needle` occurs contiguously inside `hay`. -/
def infixB (needle : List Char) : List Char → Bool
  | [] => needle.isPrefixOf []
  | c :: t => needle.isPrefixOf (c :: t) || infixB needle t

/-- Embedding of the Python substring test `needle in hay`. -/
def strContains (hay needle : String) : Bool := infixB needle.data hay.data

/-- Boolean prefix test: `strIsPre p s` is true iff `p` is a prefix of `s`. -/
def strIsPre (p s : String) : Bool := p.data.isPrefixOf s.data

/-- True iff the string starts with a whitespace character. -/
def startsWithWS (s : String) : Bool :=
  match s.data with
  | [] => false
  | c :: _ => c.isWhitespace

/-- Embedding of Python `"; ".join(notes)`. -/
def joinSemi : List String → String
  | [] => ""
  | [s] => s
  | s :: t => s ++ "; " ++ joinSemi t

/-- The registered field names, in canonical order (`COLUMNS` in the
source). -/
def COLUMNS : List String := [
  "rrn","inclusion_I1","inclusion_I2","inclusion_I3","exclusion_E1","exclusion_E2",
  "scope_decision","scope_justification","literature_type","geographic_focus","unit_of_analysis",
  "explicit_definition","verbatim_definition","typology_proposed","typology_details",
  "axis_A","axis_B","axis_C","axis_A_anchor","axis_B_anchor","axis_C_anchor",
  "purpose_tokens","key_findings",
  "participation_level","participation_evidence",
  "equity_level","equity_evidence",
  "env_level","env_evidence",
  "equity_tags","engagement_tags",
  "evidence_quality","inferred","notes","split_case",
  "original_text"]

/-- The closed enumerations (`ENUMS` in the source): allowed values per
enumerated field. -/
def ENUMS : List (String × List String) := [
  ("inclusion_I1", ["Yes","No","NA"]),
  ("inclusion_I2", ["Yes","No","NA"]),
  ("inclusion_I3", ["Yes","No","NA"]),
  ("exclusion_E1", ["Yes","No"]),
  ("exclusion_E2", ["Yes","No"]),
  ("scope_decision", ["Include","Exclude"]),
  ("unit_of_analysis", ["Village/community","Cluster of villages","Municipality/Region","Household/enterprise","Programme/policy","Other"]),
  ("explicit_definition", ["Yes","Partial","No"]),
  ("typology_proposed", ["Yes","Partial","No"]),
  ("axis_A", ["A1 State-led","A2 Co-managed","A3 Community-led","NA"]),
  ("axis_B", ["B1 Heritage-led","B2 Nature-led","B3 Mixed-portfolio","B4 Commodified/amenities-led","NA"]),
  ("axis_C", ["C1 Claimed/aspirational","C2 Process-based/criteria","C3 Measured/verified","NA"]),
  ("participation_level", ["1","2","3","NA"]),
  ("equity_level", ["1","2","3","NA"]),
  ("env_level", ["1","2","3","NA"]),
  ("evidence_quality", ["Low","Moderate","High"]),
  ("inferred", ["Yes","No"]),
  ("split_case", ["Yes","No"])]

/-- The fallback chain of `normalise_row` (the `elif` ladder under
`# Fallback aman`): given the column and the (invalid) incoming value,
yields the replacement value. -/
def fallbackChain (col val : String) : String :=
  if col ∈ ["axis_A","axis_B","axis_C","participation_level","equity_level","env_level"] then "NA"
  else if col ∈ ["explicit_definition","typology_proposed"] then "No"
  else if col ∈ ["inclusion_I1","inclusion_I2","inclusion_I3"] then "NA"
  else if col ∈ ["exclusion_E1","exclusion_E2"] then "No"
  else if col = "evidence_quality" then "Moderate"
  else if col ∈ ["inferred","split_case"] then "No"
  else if col = "scope_decision" then "Include"
  else if col = "unit_of_analysis" then "Village/community"
  else val

/-- Per-column body of `normalise_row`: `val = row.get(col, "")`, then
replace via the fallback chain when the column is enumerated and the
value is out of domain. -/
def normVal (row : Rec) (col : String) : String :=
  let val := (lookupA row col).getD ""
  match lookupA ENUMS col with
  | none => val
  | some allowed => if val ∈ allowed then val else fallbackChain col val

/-- The normalizer `normalise_row`: builds the output record with one entry per
registered column, in canonical order. -/
def normalise_row (row : Rec) : Rec :=
  COLUMNS.map (fun col => (col, normVal row col))

/-- Rule 1 of `apply_qc_rules`, one iteration of the
`for var in ["participation","equity","env"]` loop: downgrade the
outcome level to "NA" when the level is substantive but the paired
evidence is empty or "NA" (case-insensitive), noting the downgrade.
State is the record together with the accumulated notes list. -/
def qcOutcomeStep (v : String) (st : Rec × List String) : Rec × List String :=
  let lvl0 := (lookupA st.1 (v ++ "_level")).getD ""
  let lvl := pyStrip (if lvl0 = "" then "NA" else lvl0)
  let ev := pyStrip ((lookupA st.1 (v ++ "_evidence")).getD "")
  if lvl ∈ ["1","2","3"] ∧ (ev = "" ∨ pyUpper ev = "NA") then
    (dset st.1 (v ++ "_level") "NA", st.2 ++ ["Auto-NA " ++ v ++ " (no evidence)."])
  else st

/-- Rule 2 of `apply_qc_rules`: typology set to Partial when proposed
"Yes" but the details are short or marked not explicit. -/
def qcTypologyStep (st : Rec × List String) : Rec × List String :=
  if lookupA st.1 "typology_proposed" = some "Yes" then
    let td := pyLower ((lookupA st.1 "typology_details").getD "")
    if strContains td "not explicit" = true ∨ strContains td "tidak eksplisit" = true ∨ td.length < 40 then
      (dset st.1 "typology_proposed" "Partial", st.2 ++ ["Typology set to Partial (criteria unclear)."])
    else st
  else st

/-- Rule 3 of `apply_qc_rules`: on scope "Exclude", force the three axes
and three outcome levels to "NA" and default empty evidence quality to
"Low". -/
def qcScopeStep (st : Rec × List String) : Rec × List String :=
  if lookupA st.1 "scope_decision" = some "Exclude" then
    let row1 := dset (dset (dset (dset (dset (dset st.1
      "axis_A" "NA") "axis_B" "NA") "axis_C" "NA")
      "participation_level" "NA") "equity_level" "NA") "env_level" "NA"
    let eq0 := (lookupA row1 "evidence_quality").getD ""
    (dset row1 "evidence_quality" (if eq0 = "" then "Low" else eq0),
     st.2 ++ ["Excluded (scope): axes & outcomes set to NA."])
  else st

/-- Rule 4 of `apply_qc_rules`, one iteration of the
`for ax in ["A","B","C"]` loop: flag a substantive axis lacking an
anchor (annotation only, no rewrite). -/
def qcAnchorStep (ax : String) (st : Rec × List String) : Rec × List String :=
  let axv := (lookupA st.1 ("axis_" ++ ax)).getD ""
  if axv ≠ "" ∧ axv ≠ "NA" then
    if pyStrip ((lookupA st.1 ("axis_" ++ ax ++ "_anchor")).getD "") = "" then
      (st.1, st.2 ++ ["Axis " ++ ax ++ " lacks anchor."])
    else st
  else st

/-- The ordered rule pipeline of `apply_qc_rules`, before the notes are
written back: returns the rewritten record and the notes list. -/
def qcPipeline (row : Rec) : Rec × List String :=
  qcAnchorStep "C" (qcAnchorStep "B" (qcAnchorStep "A"
    (qcScopeStep (qcTypologyStep
      (qcOutcomeStep "env" (qcOutcomeStep "equity" (qcOutcomeStep "participation" (row, []))))))))

/-- The notes produced by the QC rules on a record. -/
def qcNotes (row : Rec) : List String := (qcPipeline row).2

/-- The `# Append notes` block of `apply_qc_rules`: when some rule
triggered, write the old notes, a separating space, and the "; "-joined
new notes, stripped. -/
def qcAppendNotes (st : Rec × List String) : Rec :=
  if st.2.isEmpty then st.1
  else
    let old := (lookupA st.1 "notes").getD ""
    dset st.1 "notes" (pyStrip (old ++ (if old = "" then "" else " ") ++ joinSemi st.2))

/-- The QC engine `apply_qc_rules`: run the four rules in order, append the notes, and
re-normalize the result. -/
def apply_qc_rules (row : Rec) : Rec :=
  normalise_row (qcAppendNotes (qcPipeline row))

/-- A record is complete when every registered column is present. -/
def completeB (r : Rec) : Bool :=
  COLUMNS.all (fun c => (lookupA r c).isSome)

/-- A record is enum-valid when every enumerated field that is present
holds one of its allowed values. -/
def enumValidB (r : Rec) : Bool :=
  ENUMS.all (fun p =>
    match lookupA r p.1 with
    | none => true
    | some v => p.2.contains v)

/-- The notes field of a record (empty when absent). -/
def getNotes (r : Rec) : String := (lookupA r "notes").getD ""

/-! ### Association-list lemmas -/

theorem lookupA_dset (r : Rec) (k v k' : String) :
    lookupA (dset r k v) k' = if k = k' then some v else lookupA r k' := by
  induction r with
  | nil => simp [dset, lookupA]
  | cons p t ih =>
    obtain ⟨k₀, v₀⟩ := p
    by_cases h : k₀ = k
    · subst h
      simp only [dset, if_pos rfl, lookupA]
      by_cases h2 : k₀ = k' <;> simp [h2]
    · simp only [dset, if_neg h, lookupA, ih]
      by_cases h1 : k₀ = k'
      · subst h1
        rw [if_pos rfl, if_neg (fun e => h e.symm), if_pos rfl]
      · rw [if_neg h1]
        by_cases h2 : k = k'
        · rw [if_pos h2, if_pos h2]
        · rw [if_neg h2, if_neg h2, if_neg h1]

theorem lookupA_dset_self (r : Rec) (k v : String) :
    lookupA (dset r k v) k = some v := by
  simp [lookupA_dset]

theorem lookupA_dset_ne (r : Rec) (k v k' : String) (h : k ≠ k') :
    lookupA (dset r k v) k' = lookupA r k' := by
  simp [lookupA_dset, h]

theorem lookupA_map_self (l : List String) (f : String → String) (k : String) :
    lookupA (l.map (fun c => (c, f c))) k = if k ∈ l then some (f k) else none := by
  induction l with
  | nil => simp [lookupA]
  | cons a t ih =>
    simp only [List.map_cons, lookupA, List.mem_cons]
    by_cases h : a = k
    · subst h
      simp
    · simp [h, ih, Ne.symm h]

theorem lookupA_mem {α : Type} {l : List (String × α)} {k : String} {v : α}
    (h : lookupA l k = some v) : (k, v) ∈ l := by
  induction l with
  | nil => simp [lookupA] at h
  | cons p t ih =>
    obtain ⟨k₀, v₀⟩ := p
    simp only [lookupA] at h
    by_cases hk : k₀ = k
    · subst hk
      simp at h
      simp [h]
    · simp only [if_neg hk] at h
      exact List.mem_cons_of_mem _ (ih h)

/-! ### Completeness / enum-validity bridges -/

theorem completeB_some {r : Rec} (h : completeB r = true) {c : String}
    (hc : c ∈ COLUMNS) : ∃ v, lookupA r c = some v := by
  have := (List.all_eq_true.mp h) c hc
  cases hv : lookupA r c with
  | none => rw [hv] at this; simp at this
  | some v => exact ⟨v, rfl⟩

theorem enumValidB_mem {r : Rec} (h : enumValidB r = true) {c : String}
    {vs : List String} (hc : (c, vs) ∈ ENUMS) {v : String}
    (hv : lookupA r c = some v) : v ∈ vs := by
  have := (List.all_eq_true.mp h) (c, vs) hc
  simp only at this
  rw [hv] at this
  simpa using this

/-! ### Schema-table facts -/

theorem enums_lookup_of_mem {c : String} {vs : List String}
    (h : (c, vs) ∈ ENUMS) : lookupA ENUMS c = some vs := by
  fin_cases h <;> rfl

theorem fallbackChain_mem {c : String} {vs : List String}
    (h : (c, vs) ∈ ENUMS) (v : String) : fallbackChain c v ∈ vs := by
  fin_cases h <;>
    first
    | exact .head _
    | exact .tail _ (.head _)
    | exact .tail _ (.tail _ (.head _))
    | exact .tail _ (.tail _ (.tail _ (.head _)))
    | exact .tail _ (.tail _ (.tail _ (.tail _ (.head _))))

/-! ### Normalizer lemmas -/

theorem normalise_keys (r : Rec) : (normalise_row r).map Prod.fst = COLUMNS := by
  unfold normalise_row
  rw [List.map_map]
  rw [show (Prod.fst ∘ fun col => (col, normVal r col)) = id from rfl]
  exact List.map_id COLUMNS

theorem lookupA_normalise (r : Rec) (c : String) :
    lookupA (normalise_row r) c = if c ∈ COLUMNS then some (normVal r c) else none := by
  simp [normalise_row, lookupA_map_self]

theorem normVal_valid {c : String} {vs : List String}
    (h : lookupA ENUMS c = some vs) (r : Rec) : normVal r c ∈ vs := by
  unfold normVal
  rw [h]
  show (if ((lookupA r c).getD "") ∈ vs then ((lookupA r c).getD "")
        else fallbackChain c ((lookupA r c).getD "")) ∈ vs
  by_cases hm : ((lookupA r c).getD "") ∈ vs
  · rwa [if_pos hm]
  · rw [if_neg hm]
    exact fallbackChain_mem (lookupA_mem h) _

theorem normVal_free {c : String} (h : lookupA ENUMS c = none) (r : Rec) :
    normVal r c = (lookupA r c).getD "" := by
  unfold normVal
  rw [h]

theorem normVal_keep {c : String} {vs : List String} {r : Rec} {v : String}
    (h : lookupA ENUMS c = some vs) (hv : lookupA r c = some v) (hmem : v ∈ vs) :
    normVal r c = v := by
  unfold normVal
  rw [h, hv]
  show (if v ∈ vs then v else fallbackChain c v) = v
  rw [if_pos hmem]

theorem completeB_normalise (r : Rec) : completeB (normalise_row r) = true := by
  unfold completeB
  rw [List.all_eq_true]
  intro c hc
  rw [lookupA_normalise, if_pos hc]
  rfl

theorem enum_keys_cols : ∀ p ∈ ENUMS, p.1 ∈ COLUMNS := by decide

theorem enumValidB_normalise (r : Rec) : enumValidB (normalise_row r) = true := by
  unfold enumValidB
  rw [List.all_eq_true]
  intro p hp
  obtain ⟨c, vs⟩ := p
  simp only
  rw [lookupA_normalise, if_pos (enum_keys_cols _ hp)]
  have := normVal_valid (enums_lookup_of_mem hp) r
  simpa using this

theorem normalise_idem (r : Rec) :
    normalise_row (normalise_row r) = normalise_row r := by
  unfold normalise_row
  apply List.map_congr_left
  intro c hc
  have hlook : lookupA (COLUMNS.map fun col => (col, normVal r col)) c
      = some (normVal r c) := by
    rw [lookupA_map_self, if_pos hc]
  show (c, normVal (COLUMNS.map fun col => (col, normVal r col)) c) = (c, normVal r c)
  congr 1
  cases he : lookupA ENUMS c with
  | none =>
    rw [normVal_free he, hlook]
    rw [normVal_free he r]
    rfl
  | some vs =>
    exact normVal_keep he hlook (normVal_valid he r)

/-! ### QC step lemmas: record-component preservation -/

theorem qcOutcomeStep_fst_ne (v : String) (st : Rec × List String) (k : String)
    (h : v ++ "_level" ≠ k) :
    lookupA (qcOutcomeStep v st).1 k = lookupA st.1 k := by
  simp only [qcOutcomeStep]
  split <;> split
  all_goals first | exact lookupA_dset_ne _ _ _ _ h | rfl

theorem qcTypologyStep_fst_ne (st : Rec × List String) (k : String)
    (h : "typology_proposed" ≠ k) :
    lookupA (qcTypologyStep st).1 k = lookupA st.1 k := by
  simp only [qcTypologyStep]
  split
  · split
    · exact lookupA_dset_ne _ _ _ _ h
    · rfl
  · rfl

theorem qcScopeStep_fst_ne (st : Rec × List String) (k : String)
    (h1 : "axis_A" ≠ k) (h2 : "axis_B" ≠ k) (h3 : "axis_C" ≠ k)
    (h4 : "participation_level" ≠ k) (h5 : "equity_level" ≠ k)
    (h6 : "env_level" ≠ k) (h7 : "evidence_quality" ≠ k) :
    lookupA (qcScopeStep st).1 k = lookupA st.1 k := by
  simp only [qcScopeStep]
  split
  · rw [lookupA_dset_ne _ _ _ _ h7, lookupA_dset_ne _ _ _ _ h6,
      lookupA_dset_ne _ _ _ _ h5, lookupA_dset_ne _ _ _ _ h4,
      lookupA_dset_ne _ _ _ _ h3, lookupA_dset_ne _ _ _ _ h2,
      lookupA_dset_ne _ _ _ _ h1]
  · rfl

theorem qcAnchorStep_fst (ax : String) (st : Rec × List String) :
    (qcAnchorStep ax st).1 = st.1 := by
  simp only [qcAnchorStep]
  split
  · split <;> rfl
  · rfl

theorem qcAppendNotes_ne (st : Rec × List String) (k : String)
    (h : "notes" ≠ k) : lookupA (qcAppendNotes st) k = lookupA st.1 k := by
  simp only [qcAppendNotes]
  split
  · rfl
  · exact lookupA_dset_ne _ _ _ _ h

/-- When the scope rule fires, each axis and outcome level reads "NA". -/
theorem qcScopeStep_fire (st : Rec × List String)
    (hsc : lookupA st.1 "scope_decision" = some "Exclude") (k : String)
    (hk : k ∈ ["axis_A","axis_B","axis_C","participation_level","equity_level","env_level"]) :
    lookupA (qcScopeStep st).1 k = some "NA" := by
  simp only [qcScopeStep, if_pos hsc]
  fin_cases hk <;> simp [lookupA_dset]

/-- The scope rule preserves an already-"NA" field (other than evidence
quality): it either leaves it alone or rewrites it to "NA" again. -/
theorem qcScopeStep_na (st : Rec × List String) (k : String)
    (hk : lookupA st.1 k = some "NA") (h : k ≠ "evidence_quality") :
    lookupA (qcScopeStep st).1 k = some "NA" := by
  simp only [qcScopeStep]
  split
  · rw [lookupA_dset_ne _ _ _ _ (Ne.symm h)]
    simp only [lookupA_dset]
    split_ifs <;> first | rfl | exact hk
  · exact hk

/-! ### QC step lemmas: notes-component extension -/

theorem qcOutcomeStep_snd (v : String) (st : Rec × List String) :
    (qcOutcomeStep v st).2 = st.2 ∨
      (qcOutcomeStep v st).2 = st.2 ++ ["Auto-NA " ++ v ++ " (no evidence)."] := by
  simp only [qcOutcomeStep]
  split <;> split
  all_goals first | (left; rfl) | (right; rfl)

theorem qcTypologyStep_snd (st : Rec × List String) :
    (qcTypologyStep st).2 = st.2 ∨
      (qcTypologyStep st).2 = st.2 ++ ["Typology set to Partial (criteria unclear)."] := by
  simp only [qcTypologyStep]
  split
  · split
    · right; rfl
    · left; rfl
  · left; rfl

theorem qcScopeStep_snd (st : Rec × List String) :
    (qcScopeStep st).2 = st.2 ∨
      (qcScopeStep st).2 = st.2 ++ ["Excluded (scope): axes & outcomes set to NA."] := by
  simp only [qcScopeStep]
  split
  · right; rfl
  · left; rfl

theorem qcAnchorStep_snd (ax : String) (st : Rec × List String) :
    (qcAnchorStep ax st).2 = st.2 ∨
      (qcAnchorStep ax st).2 = st.2 ++ ["Axis " ++ ax ++ " lacks anchor."] := by
  simp only [qcAnchorStep]
  split
  · split
    · right; rfl
    · left; rfl
  · left; rfl

theorem qcOutcomeStep_snd_mem (v : String) (st : Rec × List String)
    {n : String} (h : n ∈ st.2) : n ∈ (qcOutcomeStep v st).2 := by
  rcases qcOutcomeStep_snd v st with he | he <;> rw [he]
  · exact h
  · exact List.mem_append_left _ h

theorem qcTypologyStep_snd_mem (st : Rec × List String)
    {n : String} (h : n ∈ st.2) : n ∈ (qcTypologyStep st).2 := by
  rcases qcTypologyStep_snd st with he | he <;> rw [he]
  · exact h
  · exact List.mem_append_left _ h

theorem qcScopeStep_snd_mem (st : Rec × List String)
    {n : String} (h : n ∈ st.2) : n ∈ (qcScopeStep st).2 := by
  rcases qcScopeStep_snd st with he | he <;> rw [he]
  · exact h
  · exact List.mem_append_left _ h

theorem qcAnchorStep_snd_mem (ax : String) (st : Rec × List String)
    {n : String} (h : n ∈ st.2) : n ∈ (qcAnchorStep ax st).2 := by
  rcases qcAnchorStep_snd ax st with he | he <;> rw [he]
  · exact h
  · exact List.mem_append_left _ h

/-! ### QC rule firing lemmas -/

/-- When an outcome level is substantive and its evidence strips to empty
or to "NA" case-insensitively, rule 1 rewrites the level and notes it. -/
theorem qcOutcomeStep_fire (v : String) (st : Rec × List String) {lvl e : String}
    (hl : lookupA st.1 (v ++ "_level") = some lvl)
    (hlv : lvl ∈ (["1","2","3"] : List String))
    (he : lookupA st.1 (v ++ "_evidence") = some e)
    (hev : pyStrip e = "" ∨ pyUpper (pyStrip e) = "NA") :
    (qcOutcomeStep v st).1 = dset st.1 (v ++ "_level") "NA" ∧
    (qcOutcomeStep v st).2 = st.2 ++ ["Auto-NA " ++ v ++ " (no evidence)."] := by
  have hcond : pyStrip (if lvl = "" then "NA" else lvl) ∈ (["1","2","3"] : List String) := by
    fin_cases hlv <;> decide
  simp only [qcOutcomeStep, hl, he, Option.getD_some]
  rw [if_pos ⟨hcond, hev⟩]
  exact ⟨rfl, rfl⟩

/-- When typology is proposed "Yes" with unclear details, rule 2 rewrites
the flag to "Partial" and notes it. -/
theorem qcTypologyStep_fire (st : Rec × List String) {td : String}
    (hp : lookupA st.1 "typology_proposed" = some "Yes")
    (htd : lookupA st.1 "typology_details" = some td)
    (hcond : strContains (pyLower td) "not explicit" = true ∨
      strContains (pyLower td) "tidak eksplisit" = true ∨ td.length < 40) :
    (qcTypologyStep st).1 = dset st.1 "typology_proposed" "Partial" ∧
    (qcTypologyStep st).2 = st.2 ++ ["Typology set to Partial (criteria unclear)."] := by
  have hlen : (pyLower td).length = td.length := by
    show (String.mk (td.data.map Char.toLower)).length = td.length
    unfold String.length
    exact List.length_map _ _
  have hcond' : strContains (pyLower td) "not explicit" = true ∨
      strContains (pyLower td) "tidak eksplisit" = true ∨ (pyLower td).length < 40 := by
    rwa [hlen]
  simp only [qcTypologyStep, hp, htd, if_pos rfl, Option.getD_some]
  rw [if_pos hcond']
  exact ⟨rfl, rfl⟩

/-! ### Pipeline-level lemmas -/

theorem qcPipeline_fst_ne (r : Rec) (k : String)
    (h1 : "participation_level" ≠ k) (h2 : "equity_level" ≠ k) (h3 : "env_level" ≠ k)
    (h4 : "typology_proposed" ≠ k) (h5 : "axis_A" ≠ k) (h6 : "axis_B" ≠ k) (h7 : "axis_C" ≠ k)
    (h8 : "evidence_quality" ≠ k) :
    lookupA (qcPipeline r).1 k = lookupA r k := by
  have e1 : ("participation" ++ "_level" : String) = "participation_level" := by decide
  have e2 : ("equity" ++ "_level" : String) = "equity_level" := by decide
  have e3 : ("env" ++ "_level" : String) = "env_level" := by decide
  unfold qcPipeline
  rw [qcAnchorStep_fst, qcAnchorStep_fst, qcAnchorStep_fst,
    qcScopeStep_fst_ne _ _ h5 h6 h7 h1 h2 h3 h8,
    qcTypologyStep_fst_ne _ _ h4,
    qcOutcomeStep_fst_ne _ _ _ (e3.symm ▸ h3),
    qcOutcomeStep_fst_ne _ _ _ (e2.symm ▸ h2),
    qcOutcomeStep_fst_ne _ _ _ (e1.symm ▸ h1)]

/-- Re-normalizing keeps a six-key (axis / outcome-level) field that
reads "NA". -/
theorem lookup_norm_na (row : Rec) (k : String)
    (hk : k ∈ (["axis_A","axis_B","axis_C","participation_level","equity_level","env_level"] : List String))
    (hv : lookupA row k = some "NA") :
    lookupA (normalise_row row) k = some "NA" := by
  fin_cases hk <;>
  · rw [lookupA_normalise, if_pos (by decide)]
    unfold normVal
    rw [hv]
    decide

theorem lookup_norm_keep (row : Rec) {c : String} {vs : List String} {v : String}
    (hc : c ∈ COLUMNS) (he : lookupA ENUMS c = some vs)
    (hv : lookupA row c = some v) (hmem : v ∈ vs) :
    lookupA (normalise_row row) c = some v := by
  rw [lookupA_normalise, if_pos hc, normVal_keep he hv hmem]

theorem lookup_norm_free (row : Rec) {c : String}
    (hc : c ∈ COLUMNS) (he : lookupA ENUMS c = none) :
    lookupA (normalise_row row) c = some ((lookupA row c).getD "") := by
  rw [lookupA_normalise, if_pos hc, normVal_free he]

/-! ### Sample records (scenarios from the codebook) -/

/-- Scenario raw draft: excluded record carrying a substantive axis and
an evidenced outcome level. -/
def rawScope : Rec :=
  [("scope_decision","Exclude"),("axis_B","B2 Nature-led"),
   ("participation_level","3"),("participation_evidence","quote p.4")]

/-- The normalized (complete, enum-valid) excluded record. -/
def recScope : Rec := normalise_row rawScope

/-- C1: Scope cascade — for every complete, enum-valid record whose
scope_decision is "Exclude", apply_qc_rules yields "NA" (the
"not applicable" sentinel) on all three classification axes and all
three outcome levels, regardless of the outcome evidence fields. -/
theorem scope_cascade (r : Rec) (hcomp : completeB r = true) (hval : enumValidB r = true)
    (hsc : lookupA r "scope_decision" = some "Exclude") :
    ∀ k ∈ (["axis_A","axis_B","axis_C","participation_level","equity_level","env_level"] : List String),
      lookupA (apply_qc_rules r) k = some "NA" := by
  intro k hk
  have hscope_pres : lookupA (qcTypologyStep (qcOutcomeStep "env" (qcOutcomeStep "equity"
      (qcOutcomeStep "participation" (r, []))))).1 "scope_decision" = some "Exclude" := by
    rw [qcTypologyStep_fst_ne _ _ (by decide),
      qcOutcomeStep_fst_ne _ _ _ (by decide),
      qcOutcomeStep_fst_ne _ _ _ (by decide),
      qcOutcomeStep_fst_ne _ _ _ (by decide)]
    exact hsc
  have hfire := qcScopeStep_fire _ hscope_pres k hk
  have hkn : ("notes" : String) ≠ k := by fin_cases hk <;> decide
  have hpipe : lookupA (qcPipeline r).1 k = some "NA" := by
    unfold qcPipeline
    rw [qcAnchorStep_fst, qcAnchorStep_fst, qcAnchorStep_fst]
    exact hfire
  have happ : lookupA (qcAppendNotes (qcPipeline r)) k = some "NA" := by
    rw [qcAppendNotes_ne _ _ hkn]
    exact hpipe
  unfold apply_qc_rules
  exact lookup_norm_na _ k hk happ

/-- Witness for C1 at the codebook's scenario record. -/
theorem scope_cascade_witness :
    lookupA (apply_qc_rules recScope) "axis_B" = some "NA" ∧
    lookupA (apply_qc_rules recScope) "participation_level" = some "NA" :=
  ⟨scope_cascade recScope (by decide) (by decide) (by decide) "axis_B" (by decide),
   scope_cascade recScope (by decide) (by decide) (by decide) "participation_level" (by decide)⟩

/-! ### Substring and strip lemmas -/

theorem infixB_iff (n h : List Char) : infixB n h = true ↔ n <:+: h := by
  induction h with
  | nil =>
    simp [infixB, List.isPrefixOf_iff_prefix]
  | cons c t ih =>
    simp [infixB, ih, List.infix_cons_iff, List.isPrefixOf_iff_prefix]

theorem mem_joinSemi_occurs (l : List String) (n : String) (h : n ∈ l) :
    n.data <:+: (joinSemi l).data := by
  induction l with
  | nil => cases h
  | cons s t ih =>
    cases t with
    | nil =>
      rcases List.mem_singleton.mp h with rfl
      exact List.infix_refl _
    | cons s' t' =>
      by_cases hn : n = s
      · subst hn
        show n.data <:+: ((n ++ "; ") ++ joinSemi (s' :: t')).data
        simp only [String.data_append]
        exact ⟨[], "; ".data ++ (joinSemi (s' :: t')).data, by simp [List.append_assoc]⟩
      · have h2 : n ∈ s' :: t' := by
          rcases List.mem_cons.mp h with he | h2
          · exact absurd he hn
          · exact h2
        obtain ⟨u, w, huw⟩ := ih h2
        refine ⟨(s ++ "; ").data ++ u, w, ?_⟩
        show (s ++ "; ").data ++ u ++ n.data ++ w = ((s ++ "; ") ++ joinSemi (s' :: t')).data
        simp only [String.data_append]
        rw [← huw]
        simp [List.append_assoc]

theorem infix_dropWhile {n l : List Char} {c : Char} (hc : n.head? = some c)
    (hp : c.isWhitespace = false) (h : n <:+: l) :
    n <:+: l.dropWhile Char.isWhitespace := by
  induction l with
  | nil =>
    rw [List.infix_nil] at h
    subst h
    simp at hc
  | cons a t ih =>
    by_cases hpa : a.isWhitespace
    · rw [List.dropWhile_cons_of_pos hpa]
      rcases List.infix_cons_iff.mp h with hpre | hinf
      · cases n with
        | nil => simp at hc
        | cons n0 nt =>
          obtain ⟨rfl, -⟩ := List.cons_prefix_cons.mp hpre
          obtain rfl : n0 = c := by simpa using hc
          rw [hpa] at hp
          exact absurd hp (by simp)
      · exact ih hinf
    · rwa [List.dropWhile_cons_of_neg hpa]

theorem infix_pyStripL {n l : List Char} {c₀ c₁ : Char}
    (h0 : n.head? = some c₀) (hw0 : c₀.isWhitespace = false)
    (h1 : n.getLast? = some c₁) (hw1 : c₁.isWhitespace = false)
    (h : n <:+: l) : n <:+: pyStripL l := by
  unfold pyStripL
  have s1 : n <:+: l.dropWhile Char.isWhitespace := infix_dropWhile h0 hw0 h
  have s2 := List.reverse_infix.mpr s1
  have h0' : n.reverse.head? = some c₁ := by rw [List.head?_reverse]; exact h1
  have s3 := infix_dropWhile h0' hw1 s2
  have s4 := List.reverse_infix.mpr s3
  simpa using s4

theorem dropWhile_of_head {l : List Char} {c : Char} (hc : l.head? = some c)
    (hw : c.isWhitespace = false) : l.dropWhile Char.isWhitespace = l := by
  cases l with
  | nil => simp at hc
  | cons a t =>
    obtain rfl : a = c := by simpa using hc
    rw [List.dropWhile_cons_of_neg (by simp [hw])]

theorem pyStripL_eq_self {l : List Char} {c₀ c₁ : Char}
    (h0 : l.head? = some c₀) (hw0 : c₀.isWhitespace = false)
    (h1 : l.getLast? = some c₁) (hw1 : c₁.isWhitespace = false) : pyStripL l = l := by
  unfold pyStripL
  rw [dropWhile_of_head h0 hw0,
    dropWhile_of_head (by rw [List.head?_reverse]; exact h1) hw1]
  exact List.reverse_reverse l

/-! ### Shapes of the QC annotations -/

/-- Every annotation the QC rules emit starts with a non-whitespace
character and ends with a period. -/
def NoteShape (n : String) : Prop :=
  (∃ c, n.data.head? = some c ∧ c.isWhitespace = false) ∧ n.data.getLast? = some '.'

theorem noteShape_outcome (v : String) :
    NoteShape ("Auto-NA " ++ v ++ " (no evidence).") := by
  constructor
  · exact ⟨'A', rfl, rfl⟩
  · rw [String.data_append, List.getLast?_append]
    rfl

theorem noteShape_typology : NoteShape "Typology set to Partial (criteria unclear)." :=
  ⟨⟨'T', rfl, rfl⟩, by decide⟩

theorem noteShape_scope : NoteShape "Excluded (scope): axes & outcomes set to NA." :=
  ⟨⟨'E', rfl, rfl⟩, by decide⟩

theorem noteShape_anchor (ax : String) :
    NoteShape ("Axis " ++ ax ++ " lacks anchor.") := by
  constructor
  · exact ⟨'A', rfl, rfl⟩
  · rw [String.data_append, List.getLast?_append]
    rfl

theorem shape_append {l : List String} {note : String}
    (hs : ∀ n ∈ l, NoteShape n) (hn : NoteShape note) :
    ∀ n ∈ l ++ [note], NoteShape n := by
  intro n hmem
  rcases List.mem_append.mp hmem with h | h
  · exact hs n h
  · rcases List.mem_singleton.mp h with rfl
    exact hn

theorem shape_or {st st' : Rec × List String} {note : String}
    (hd : st'.2 = st.2 ∨ st'.2 = st.2 ++ [note])
    (hs : ∀ n ∈ st.2, NoteShape n) (hn : NoteShape note) :
    ∀ n ∈ st'.2, NoteShape n := by
  rcases hd with he | he <;> rw [he]
  · exact hs
  · exact shape_append hs hn

theorem qcNotes_shape (r : Rec) : ∀ n ∈ qcNotes r, NoteShape n := by
  unfold qcNotes qcPipeline
  exact shape_or (qcAnchorStep_snd "C" _)
    (shape_or (qcAnchorStep_snd "B" _)
      (shape_or (qcAnchorStep_snd "A" _)
        (shape_or (qcScopeStep_snd _)
          (shape_or (qcTypologyStep_snd _)
            (shape_or (qcOutcomeStep_snd "env" _)
              (shape_or (qcOutcomeStep_snd "equity" _)
                (shape_or (qcOutcomeStep_snd "participation" _)
                  (fun n h => absurd h (List.not_mem_nil n))
                  (noteShape_outcome _))
                (noteShape_outcome _))
              (noteShape_outcome _))
            noteShape_typology)
          noteShape_scope)
        (noteShape_anchor _))
      (noteShape_anchor _))
    (noteShape_anchor _)

theorem joinSemi_shape : ∀ (l : List String), l ≠ [] → (∀ n ∈ l, NoteShape n) →
    (∃ c, (joinSemi l).data.head? = some c ∧ c.isWhitespace = false) ∧
      (joinSemi l).data.getLast? = some '.'
  | [], h, _ => absurd rfl h
  | [s], _, hs => hs s (List.mem_singleton.mpr rfl)
  | s :: s' :: t, _, hs => by
    have ih := joinSemi_shape (s' :: t) (by simp) (fun n h => hs n (List.mem_cons_of_mem _ h))
    have hsS := hs s (List.mem_cons_self _ _)
    constructor
    · obtain ⟨⟨c, hc, hw⟩, -⟩ := hsS
      refine ⟨c, ?_, hw⟩
      show ((s ++ "; ") ++ joinSemi (s' :: t)).data.head? = some c
      rw [String.data_append, String.data_append]
      cases hd : s.data with
      | nil => rw [hd] at hc; simp at hc
      | cons a l2 =>
        rw [hd] at hc
        simpa using hc
    · obtain ⟨-, hlast⟩ := ih
      show ((s ++ "; ") ++ joinSemi (s' :: t)).data.getLast? = some '.'
      rw [String.data_append, List.getLast?_append, hlast]
      rfl

theorem infix_append_left' {n J : List Char} (pre : List Char) (h : n <:+: J) :
    n <:+: pre ++ J := by
  obtain ⟨u, w, huw⟩ := h
  exact ⟨pre ++ u, w, by rw [← huw]; simp [List.append_assoc]⟩

/-! ### Notes write-back lemmas -/

theorem qcAppendNotes_empty (st : Rec × List String) (h : st.2 = []) :
    qcAppendNotes st = st.1 := by
  simp [qcAppendNotes, h]

theorem qcAppendNotes_notes (st : Rec × List String) (h : st.2 ≠ []) :
    lookupA (qcAppendNotes st) "notes" =
      some (pyStrip (((lookupA st.1 "notes").getD "") ++
        (if ((lookupA st.1 "notes").getD "") = "" then "" else " ") ++ joinSemi st.2)) := by
  simp only [qcAppendNotes]
  rw [if_neg (by simpa [List.isEmpty_iff] using h)]
  exact lookupA_dset_self _ _ _

theorem qcPipeline_notes_pres (r : Rec) :
    lookupA (qcPipeline r).1 "notes" = lookupA r "notes" :=
  qcPipeline_fst_ne r "notes" (by decide) (by decide) (by decide) (by decide)
    (by decide) (by decide) (by decide) (by decide)

/-- Any annotation emitted by the QC rules appears as a substring of the
final notes field of `apply_qc_rules`. -/
theorem note_in_final (r : Rec) {n : String} (hn : n ∈ qcNotes r) :
    strContains (getNotes (apply_qc_rules r)) n = true := by
  obtain ⟨⟨c₀, hc₀, hw₀⟩, hlast⟩ := qcNotes_shape r n hn
  have hne : qcNotes r ≠ [] := fun h => absurd (h ▸ hn) (List.not_mem_nil n)
  have happ := qcAppendNotes_notes (qcPipeline r) hne
  have hq : (qcPipeline r).2 = qcNotes r := rfl
  rw [hq] at happ
  have hfinal : lookupA (apply_qc_rules r) "notes" =
      some ((lookupA (qcAppendNotes (qcPipeline r)) "notes").getD "") := by
    unfold apply_qc_rules
    exact lookup_norm_free _ (by decide) (by decide)
  rw [happ, Option.getD_some] at hfinal
  unfold getNotes
  rw [hfinal, Option.getD_some]
  apply (infixB_iff _ _).mpr
  apply infix_pyStripL hc₀ hw₀ hlast (by decide)
  rw [String.data_append]
  exact infix_append_left' _ (mem_joinSemi_occurs _ _ hn)

theorem qcScopeStep_skip (st : Rec × List String)
    (h : ¬ lookupA st.1 "scope_decision" = some "Exclude") : qcScopeStep st = st := by
  simp only [qcScopeStep]
  rw [if_neg h]

/-- Under scope "Include", `apply_qc_rules` leaves the three
classification axes at their incoming (valid) values. -/
theorem axes_unchanged (r : Rec) (hcomp : completeB r = true) (hval : enumValidB r = true)
    (hsc : lookupA r "scope_decision" = some "Include") :
    ∀ a ∈ (["axis_A","axis_B","axis_C"] : List String),
      lookupA (apply_qc_rules r) a = lookupA r a := by
  intro a ha
  have hscope_pres : lookupA (qcTypologyStep (qcOutcomeStep "env" (qcOutcomeStep "equity"
      (qcOutcomeStep "participation" (r, []))))).1 "scope_decision" = some "Include" := by
    rw [qcTypologyStep_fst_ne _ _ (by decide), qcOutcomeStep_fst_ne _ _ _ (by decide),
      qcOutcomeStep_fst_ne _ _ _ (by decide), qcOutcomeStep_fst_ne _ _ _ (by decide)]
    exact hsc
  have hskip := qcScopeStep_skip _ (by rw [hscope_pres]; simp)
  have hpipe : lookupA (qcPipeline r).1 a = lookupA r a := by
    unfold qcPipeline
    rw [qcAnchorStep_fst, qcAnchorStep_fst, qcAnchorStep_fst, hskip]
    fin_cases ha <;>
      rw [qcTypologyStep_fst_ne _ _ (by decide), qcOutcomeStep_fst_ne _ _ _ (by decide),
        qcOutcomeStep_fst_ne _ _ _ (by decide), qcOutcomeStep_fst_ne _ _ _ (by decide)]
  obtain ⟨va, hva⟩ := completeB_some hcomp (show a ∈ COLUMNS by fin_cases ha <;> decide)
  have h7 : lookupA (qcAppendNotes (qcPipeline r)) a = some va := by
    rw [qcAppendNotes_ne _ _ (by fin_cases ha <;> decide), hpipe]
    exact hva
  have hout : lookupA (apply_qc_rules r) a = some va := by
    unfold apply_qc_rules
    fin_cases ha
    · exact lookup_norm_keep _ (by decide) rfl h7
        (enumValidB_mem hval
          (by decide : ("axis_A", ["A1 State-led","A2 Co-managed","A3 Community-led","NA"]) ∈ ENUMS) hva)
    · exact lookup_norm_keep _ (by decide) rfl h7
        (enumValidB_mem hval
          (by decide : ("axis_B", ["B1 Heritage-led","B2 Nature-led","B3 Mixed-portfolio","B4 Commodified/amenities-led","NA"]) ∈ ENUMS) hva)
    · exact lookup_norm_keep _ (by decide) rfl h7
        (enumValidB_mem hval
          (by decide : ("axis_C", ["C1 Claimed/aspirational","C2 Process-based/criteria","C3 Measured/verified","NA"]) ∈ ENUMS) hva)
  rw [hout, hva]

/-- Core of the evidence-gating rule: for each of the three outcome
axes, a substantive level whose paired evidence strips to empty or to
"NA" case-insensitively ends up "NA" after `apply_qc_rules`, with the
corresponding annotation among the QC notes. -/
theorem gate_main (r : Rec) (v : String)
    (hv : v ∈ (["participation","equity","env"] : List String))
    {lvl : String} (hl : lookupA r (v ++ "_level") = some lvl)
    (hlv : lvl ∈ (["1","2","3"] : List String))
    {e : String} (he : lookupA r (v ++ "_evidence") = some e)
    (hev : pyStrip e = "" ∨ pyUpper (pyStrip e) = "NA") :
    lookupA (apply_qc_rules r) (v ++ "_level") = some "NA" ∧
      ("Auto-NA " ++ v ++ " (no evidence).") ∈ qcNotes r := by
  fin_cases hv
  · obtain ⟨hfst, hsnd⟩ := qcOutcomeStep_fire "participation" (r, []) hl hlv he hev
    have h1 : lookupA (qcOutcomeStep "participation" (r, [])).1
        ("participation" ++ "_level") = some "NA" := by
      rw [hfst]
      exact lookupA_dset_self _ _ _
    have h2 : lookupA (qcOutcomeStep "equity" (qcOutcomeStep "participation" (r, []))).1
        ("participation" ++ "_level") = some "NA" := by
      rw [qcOutcomeStep_fst_ne _ _ _ (by decide)]
      exact h1
    have h3 : lookupA (qcOutcomeStep "env" (qcOutcomeStep "equity"
        (qcOutcomeStep "participation" (r, [])))).1 ("participation" ++ "_level") = some "NA" := by
      rw [qcOutcomeStep_fst_ne _ _ _ (by decide)]
      exact h2
    have h4 : lookupA (qcTypologyStep (qcOutcomeStep "env" (qcOutcomeStep "equity"
        (qcOutcomeStep "participation" (r, []))))).1 ("participation" ++ "_level") = some "NA" := by
      rw [qcTypologyStep_fst_ne _ _ (by decide)]
      exact h3
    have h5 := qcScopeStep_na _ _ h4 (by decide)
    have h6 : lookupA (qcPipeline r).1 ("participation" ++ "_level") = some "NA" := by
      unfold qcPipeline
      rw [qcAnchorStep_fst, qcAnchorStep_fst, qcAnchorStep_fst]
      exact h5
    have h7 : lookupA (qcAppendNotes (qcPipeline r)) ("participation" ++ "_level") = some "NA" := by
      rw [qcAppendNotes_ne _ _ (by decide)]
      exact h6
    refine ⟨?_, ?_⟩
    · unfold apply_qc_rules
      exact lookup_norm_na _ _ (by decide) h7
    · have m1 : ("Auto-NA " ++ "participation" ++ " (no evidence).") ∈
          (qcOutcomeStep "participation" (r, [])).2 := by
        rw [hsnd]
        exact List.mem_append_right _ (List.mem_singleton.mpr rfl)
      show _ ∈ qcNotes r
      unfold qcNotes qcPipeline
      exact qcAnchorStep_snd_mem _ _ (qcAnchorStep_snd_mem _ _ (qcAnchorStep_snd_mem _ _
        (qcScopeStep_snd_mem _ (qcTypologyStep_snd_mem _
          (qcOutcomeStep_snd_mem "env" _ (qcOutcomeStep_snd_mem "equity" _ m1))))))
  · have hlP : lookupA (qcOutcomeStep "participation" (r, [])).1 ("equity" ++ "_level")
        = some lvl := by
      rw [qcOutcomeStep_fst_ne _ _ _ (by decide)]
      exact hl
    have heP : lookupA (qcOutcomeStep "participation" (r, [])).1 ("equity" ++ "_evidence")
        = some e := by
      rw [qcOutcomeStep_fst_ne _ _ _ (by decide)]
      exact he
    obtain ⟨hfst, hsnd⟩ :=
      qcOutcomeStep_fire "equity" (qcOutcomeStep "participation" (r, [])) hlP hlv heP hev
    have h2 : lookupA (qcOutcomeStep "equity" (qcOutcomeStep "participation" (r, []))).1
        ("equity" ++ "_level") = some "NA" := by
      rw [hfst]
      exact lookupA_dset_self _ _ _
    have h3 : lookupA (qcOutcomeStep "env" (qcOutcomeStep "equity"
        (qcOutcomeStep "participation" (r, [])))).1 ("equity" ++ "_level") = some "NA" := by
      rw [qcOutcomeStep_fst_ne _ _ _ (by decide)]
      exact h2
    have h4 : lookupA (qcTypologyStep (qcOutcomeStep "env" (qcOutcomeStep "equity"
        (qcOutcomeStep "participation" (r, []))))).1 ("equity" ++ "_level") = some "NA" := by
      rw [qcTypologyStep_fst_ne _ _ (by decide)]
      exact h3
    have h5 := qcScopeStep_na _ _ h4 (by decide)
    have h6 : lookupA (qcPipeline r).1 ("equity" ++ "_level") = some "NA" := by
      unfold qcPipeline
      rw [qcAnchorStep_fst, qcAnchorStep_fst, qcAnchorStep_fst]
      exact h5
    have h7 : lookupA (qcAppendNotes (qcPipeline r)) ("equity" ++ "_level") = some "NA" := by
      rw [qcAppendNotes_ne _ _ (by decide)]
      exact h6
    refine ⟨?_, ?_⟩
    · unfold apply_qc_rules
      exact lookup_norm_na _ _ (by decide) h7
    · have m1 : ("Auto-NA " ++ "equity" ++ " (no evidence).") ∈
          (qcOutcomeStep "equity" (qcOutcomeStep "participation" (r, []))).2 := by
        rw [hsnd]
        exact List.mem_append_right _ (List.mem_singleton.mpr rfl)
      show _ ∈ qcNotes r
      unfold qcNotes qcPipeline
      exact qcAnchorStep_snd_mem _ _ (qcAnchorStep_snd_mem _ _ (qcAnchorStep_snd_mem _ _
        (qcScopeStep_snd_mem _ (qcTypologyStep_snd_mem _
          (qcOutcomeStep_snd_mem "env" _ m1)))))
  · have hlP : lookupA (qcOutcomeStep "equity" (qcOutcomeStep "participation" (r, []))).1
        ("env" ++ "_level") = some lvl := by
      rw [qcOutcomeStep_fst_ne _ _ _ (by decide), qcOutcomeStep_fst_ne _ _ _ (by decide)]
      exact hl
    have heP : lookupA (qcOutcomeStep "equity" (qcOutcomeStep "participation" (r, []))).1
        ("env" ++ "_evidence") = some e := by
      rw [qcOutcomeStep_fst_ne _ _ _ (by decide), qcOutcomeStep_fst_ne _ _ _ (by decide)]
      exact he
    obtain ⟨hfst, hsnd⟩ := qcOutcomeStep_fire "env"
      (qcOutcomeStep "equity" (qcOutcomeStep "participation" (r, []))) hlP hlv heP hev
    have h3 : lookupA (qcOutcomeStep "env" (qcOutcomeStep "equity"
        (qcOutcomeStep "participation" (r, [])))).1 ("env" ++ "_level") = some "NA" := by
      rw [hfst]
      exact lookupA_dset_self _ _ _
    have h4 : lookupA (qcTypologyStep (qcOutcomeStep "env" (qcOutcomeStep "equity"
        (qcOutcomeStep "participation" (r, []))))).1 ("env" ++ "_level") = some "NA" := by
      rw [qcTypologyStep_fst_ne _ _ (by decide)]
      exact h3
    have h5 := qcScopeStep_na _ _ h4 (by decide)
    have h6 : lookupA (qcPipeline r).1 ("env" ++ "_level") = some "NA" := by
      unfold qcPipeline
      rw [qcAnchorStep_fst, qcAnchorStep_fst, qcAnchorStep_fst]
      exact h5
    have h7 : lookupA (qcAppendNotes (qcPipeline r)) ("env" ++ "_level") = some "NA" := by
      rw [qcAppendNotes_ne _ _ (by decide)]
      exact h6
    refine ⟨?_, ?_⟩
    · unfold apply_qc_rules
      exact lookup_norm_na _ _ (by decide) h7
    · have m1 : ("Auto-NA " ++ "env" ++ " (no evidence).") ∈
          (qcOutcomeStep "env" (qcOutcomeStep "equity"
            (qcOutcomeStep "participation" (r, [])))).2 := by
        rw [hsnd]
        exact List.mem_append_right _ (List.mem_singleton.mpr rfl)
      show _ ∈ qcNotes r
      unfold qcNotes qcPipeline
      exact qcAnchorStep_snd_mem _ _ (qcAnchorStep_snd_mem _ _ (qcAnchorStep_snd_mem _ _
        (qcScopeStep_snd_mem _ (qcTypologyStep_snd_mem _ m1))))

/-- Scenario raw draft for evidence-gating: substantive equity level with
empty evidence under scope "Include". -/
def rawGate : Rec :=
  [("axis_A","A1 State-led"),("equity_level","2"),("equity_evidence",""),
   ("scope_decision","Include")]

/-- The normalized evidence-gating scenario record. -/
def recGate : Rec := normalise_row rawGate

/-- C2: Evidence-gating on empty evidence — for every complete,
enum-valid record and outcome axis v among participation/equity/env,
a level in {"1","2","3"} paired with empty evidence is forced to "NA"
by apply_qc_rules, the output notes contain the downgrade annotation
naming that outcome, and under scope "Include" the classification axes
are left unchanged. -/
theorem evidence_gate_empty (r : Rec) (v : String)
    (hv : v ∈ (["participation","equity","env"] : List String))
    (hcomp : completeB r = true) (hval : enumValidB r = true)
    {lvl : String} (hl : lookupA r (v ++ "_level") = some lvl)
    (hlv : lvl ∈ (["1","2","3"] : List String))
    (he : lookupA r (v ++ "_evidence") = some "") :
    lookupA (apply_qc_rules r) (v ++ "_level") = some "NA" ∧
    strContains (getNotes (apply_qc_rules r)) ("Auto-NA " ++ v ++ " (no evidence).") = true ∧
    (lookupA r "scope_decision" = some "Include" →
      ∀ a ∈ (["axis_A","axis_B","axis_C"] : List String),
        lookupA (apply_qc_rules r) a = lookupA r a) := by
  have hg := gate_main r v hv hl hlv he (Or.inl (by decide))
  exact ⟨hg.1, note_in_final r hg.2, fun hsc => axes_unchanged r hcomp hval hsc⟩

/-- Witness for C2 at the codebook's scenario record. -/
theorem evidence_gate_empty_witness :
    lookupA (apply_qc_rules recGate) ("equity" ++ "_level") = some "NA" ∧
    strContains (getNotes (apply_qc_rules recGate)) ("Auto-NA " ++ "equity" ++ " (no evidence).") = true ∧
    lookupA (apply_qc_rules recGate) "axis_A" = lookupA recGate "axis_A" :=
  ⟨(@evidence_gate_empty recGate "equity" (by decide) (by decide) (by decide) "2"
      (by decide) (by decide) (by decide)).1,
   (@evidence_gate_empty recGate "equity" (by decide) (by decide) (by decide) "2"
      (by decide) (by decide) (by decide)).2.1,
   (@evidence_gate_empty recGate "equity" (by decide) (by decide) (by decide) "2"
      (by decide) (by decide) (by decide)).2.2 (by decide) "axis_A" (by decide)⟩

/-- A record whose equity evidence is the textual sentinel "na". -/
def recGateNA : Rec :=
  normalise_row [("equity_level","2"),("equity_evidence","na"),("scope_decision","Include")]

/-- C5: Evidence-gating on a textual "not applicable" evidence value —
for every complete, enum-valid record and outcome axis v, a substantive
level whose paired evidence equals the "not applicable" sentinel "NA"
case-insensitively is forced to "NA", with a note naming the outcome. -/
theorem evidence_gate_na_text (r : Rec) (v : String)
    (hv : v ∈ (["participation","equity","env"] : List String))
    (hcomp : completeB r = true) (hval : enumValidB r = true)
    {lvl : String} (hl : lookupA r (v ++ "_level") = some lvl)
    (hlv : lvl ∈ (["1","2","3"] : List String))
    {e : String} (he : lookupA r (v ++ "_evidence") = some e)
    (hna : e ∈ (["NA","Na","nA","na"] : List String)) :
    lookupA (apply_qc_rules r) (v ++ "_level") = some "NA" ∧
    strContains (getNotes (apply_qc_rules r)) ("Auto-NA " ++ v ++ " (no evidence).") = true := by
  have hev : pyStrip e = "" ∨ pyUpper (pyStrip e) = "NA" := by
    fin_cases hna <;> exact Or.inr (by decide)
  have hg := gate_main r v hv hl hlv he hev
  exact ⟨hg.1, note_in_final r hg.2⟩

/-- Witness for C5 with evidence text "na". -/
theorem evidence_gate_na_text_witness :
    lookupA (apply_qc_rules recGateNA) ("equity" ++ "_level") = some "NA" ∧
    strContains (getNotes (apply_qc_rules recGateNA)) ("Auto-NA " ++ "equity" ++ " (no evidence).") = true :=
  @evidence_gate_na_text recGateNA "equity" (by decide) (by decide) (by decide) "2"
    (by decide) (by decide) "na" (by decide) (by decide)

/-- Scenario raw draft for the typology-confidence rule: proposed "Yes"
with 3-character details text. -/
def rawTyp : Rec :=
  [("typology_proposed","Yes"),("typology_details","yes"),("scope_decision","Include")]

/-- The normalized typology scenario record. -/
def recTyp : Rec := normalise_row rawTyp

/-- C6: Typology-confidence rule — for every complete, enum-valid record
with typology_proposed "Yes" whose details text is shorter than 40
characters or contains "not explicit" / "tidak eksplisit"
case-insensitively, apply_qc_rules downgrades the flag to "Partial" and
appends the corresponding note. -/
theorem typology_downgrade (r : Rec) (hcomp : completeB r = true) (hval : enumValidB r = true)
    (hp : lookupA r "typology_proposed" = some "Yes")
    {td : String} (htd : lookupA r "typology_details" = some td)
    (hcond : td.length < 40 ∨ strContains (pyLower td) "not explicit" = true ∨
      strContains (pyLower td) "tidak eksplisit" = true) :
    lookupA (apply_qc_rules r) "typology_proposed" = some "Partial" ∧
    strContains (getNotes (apply_qc_rules r)) "Typology set to Partial (criteria unclear)." = true := by
  have hpP : lookupA (qcOutcomeStep "env" (qcOutcomeStep "equity"
      (qcOutcomeStep "participation" (r, [])))).1 "typology_proposed" = some "Yes" := by
    rw [qcOutcomeStep_fst_ne _ _ _ (by decide), qcOutcomeStep_fst_ne _ _ _ (by decide),
      qcOutcomeStep_fst_ne _ _ _ (by decide)]
    exact hp
  have htdP : lookupA (qcOutcomeStep "env" (qcOutcomeStep "equity"
      (qcOutcomeStep "participation" (r, [])))).1 "typology_details" = some td := by
    rw [qcOutcomeStep_fst_ne _ _ _ (by decide), qcOutcomeStep_fst_ne _ _ _ (by decide),
      qcOutcomeStep_fst_ne _ _ _ (by decide)]
    exact htd
  have hcond' : strContains (pyLower td) "not explicit" = true ∨
      strContains (pyLower td) "tidak eksplisit" = true ∨ td.length < 40 := by
    rcases hcond with h | h | h
    · exact Or.inr (Or.inr h)
    · exact Or.inl h
    · exact Or.inr (Or.inl h)
  obtain ⟨hfst, hsnd⟩ := qcTypologyStep_fire _ hpP htdP hcond'
  have h4 : lookupA (qcTypologyStep (qcOutcomeStep "env" (qcOutcomeStep "equity"
      (qcOutcomeStep "participation" (r, []))))).1 "typology_proposed" = some "Partial" := by
    rw [hfst]
    exact lookupA_dset_self _ _ _
  have h5 : lookupA (qcScopeStep (qcTypologyStep (qcOutcomeStep "env" (qcOutcomeStep "equity"
      (qcOutcomeStep "participation" (r, [])))))).1 "typology_proposed" = some "Partial" := by
    rw [qcScopeStep_fst_ne _ _ (by decide) (by decide) (by decide) (by decide) (by decide)
      (by decide) (by decide)]
    exact h4
  have h6 : lookupA (qcPipeline r).1 "typology_proposed" = some "Partial" := by
    unfold qcPipeline
    rw [qcAnchorStep_fst, qcAnchorStep_fst, qcAnchorStep_fst]
    exact h5
  have h7 : lookupA (qcAppendNotes (qcPipeline r)) "typology_proposed" = some "Partial" := by
    rw [qcAppendNotes_ne _ _ (by decide)]
    exact h6
  constructor
  · unfold apply_qc_rules
    exact lookup_norm_keep _ (by decide) rfl h7 (by decide)
  · apply note_in_final
    have m1 : "Typology set to Partial (criteria unclear)." ∈
        (qcTypologyStep (qcOutcomeStep "env" (qcOutcomeStep "equity"
          (qcOutcomeStep "participation" (r, []))))).2 := by
      rw [hsnd]
      exact List.mem_append_right _ (List.mem_singleton.mpr rfl)
    show _ ∈ qcNotes r
    unfold qcNotes qcPipeline
    exact qcAnchorStep_snd_mem _ _ (qcAnchorStep_snd_mem _ _ (qcAnchorStep_snd_mem _ _
      (qcScopeStep_snd_mem _ m1)))

/-- Witness for C6: details text "yes" (length 3 < 40) triggers the
downgrade. -/
theorem typology_downgrade_witness :
    lookupA (apply_qc_rules recTyp) "typology_proposed" = some "Partial" ∧
    strContains (getNotes (apply_qc_rules recTyp)) "Typology set to Partial (criteria unclear)." = true :=
  @typology_downgrade recTyp (by decide) (by decide) (by decide) "yes" (by decide)
    (Or.inl (by decide))

theorem strMk_data (s : String) : String.mk s.data = s := by
  cases s
  rfl

/-- C8: Normalization idempotence — for every mapping raw,
normalise_row (normalise_row raw) = normalise_row raw. -/
theorem normalise_row_idem (raw : Rec) :
    normalise_row (normalise_row raw) = normalise_row raw :=
  normalise_idem raw

/-- C3: Normalizer totality and postcondition — for every mapping raw
(the function is total by construction, so it never fails), the output's
key list is exactly COLUMNS in order; every enumerated field holds an
allowed value; an absent or out-of-domain enumerated value is replaced
by the fallback chain's value for that field; and every free-text field
passes through unchanged, defaulting to the empty string when absent. -/
theorem normalise_row_contract (raw : Rec) :
    (normalise_row raw).map Prod.fst = COLUMNS ∧
    (∀ c vs v, lookupA ENUMS c = some vs → lookupA (normalise_row raw) c = some v → v ∈ vs) ∧
    (∀ c vs, lookupA ENUMS c = some vs → ((lookupA raw c).getD "") ∉ vs →
      lookupA (normalise_row raw) c = some (fallbackChain c ((lookupA raw c).getD ""))) ∧
    (∀ c, c ∈ COLUMNS → lookupA ENUMS c = none →
      lookupA (normalise_row raw) c = some ((lookupA raw c).getD "")) := by
  refine ⟨normalise_keys raw, ?_, ?_, ?_⟩
  · intro c vs v he hv
    rw [lookupA_normalise] at hv
    by_cases hc : c ∈ COLUMNS
    · rw [if_pos hc] at hv
      obtain rfl : normVal raw c = v := by injection hv
      exact normVal_valid he raw
    · rw [if_neg hc] at hv
      cases hv
  · intro c vs he hout
    have hc : c ∈ COLUMNS := enum_keys_cols (c, vs) (lookupA_mem he)
    rw [lookupA_normalise, if_pos hc]
    congr 1
    unfold normVal
    rw [he]
    show (if ((lookupA raw c).getD "") ∈ vs then ((lookupA raw c).getD "")
          else fallbackChain c ((lookupA raw c).getD "")) = _
    rw [if_neg hout]
  · intro c hc he
    exact lookup_norm_free raw hc he

/-- Witness for C3: empty mapping gets the scope fallback "Include", an
out-of-domain axis value falls back to "NA", and free text passes
through. -/
theorem normalise_row_contract_witness :
    (normalise_row []).map Prod.fst = COLUMNS ∧
    lookupA (normalise_row []) "scope_decision" = some "Include" ∧
    lookupA (normalise_row [("axis_B","bogus")]) "axis_B" = some "NA" ∧
    lookupA (normalise_row [("notes","free text")]) "notes" = some "free text" :=
  ⟨(normalise_row_contract []).1,
   ((normalise_row_contract []).2.2.1 "scope_decision" ["Include","Exclude"]
     (by decide) (by decide)).trans (by decide),
   ((normalise_row_contract [("axis_B","bogus")]).2.2.1 "axis_B"
     ["B1 Heritage-led","B2 Nature-led","B3 Mixed-portfolio","B4 Commodified/amenities-led","NA"]
     (by decide) (by decide)).trans (by decide),
   ((normalise_row_contract [("notes","free text")]).2.2.2 "notes"
     (by decide) (by decide)).trans (by decide)⟩

/-- C4: QC output validity — for every complete, enum-valid record,
apply_qc_rules returns a record that is complete, enum-valid, and a
fixpoint of normalise_row (the engine re-normalizes before returning). -/
theorem apply_qc_valid (r : Rec) (hcomp : completeB r = true) (hval : enumValidB r = true) :
    completeB (apply_qc_rules r) = true ∧ enumValidB (apply_qc_rules r) = true ∧
    normalise_row (apply_qc_rules r) = apply_qc_rules r := by
  refine ⟨?_, ?_, ?_⟩
  · unfold apply_qc_rules
    exact completeB_normalise _
  · unfold apply_qc_rules
    exact enumValidB_normalise _
  · unfold apply_qc_rules
    exact normalise_idem _

/-- Witness for C4 at the excluded scenario record. -/
theorem apply_qc_valid_witness :
    completeB (apply_qc_rules recScope) = true ∧
    enumValidB (apply_qc_rules recScope) = true ∧
    normalise_row (apply_qc_rules recScope) = apply_qc_rules recScope :=
  apply_qc_valid recScope (by decide) (by decide)

theorem strIsPre_nil (s : String) : strIsPre "" s = true := by
  unfold strIsPre
  rw [ List.isPrefixOf_iff_prefix]
  exact List.nil_prefix

/-- C7 (amended): Notes are appended, never overwritten — for every
complete, enum-valid record, when no rule triggers the notes field is
unchanged; when rules trigger, the output notes field equals the
pre-existing notes text, a separating space (absent when the prior text
was empty), and the triggered annotations joined with "; ", all
stripped of surrounding whitespace — so the input's notes text remains
a prefix of the output's notes field whenever it does not begin with a
whitespace character. -/
theorem notes_appended (r : Rec) (hcomp : completeB r = true) (hval : enumValidB r = true)
    {old : String} (hold : lookupA r "notes" = some old) :
    (qcNotes r = [] → lookupA (apply_qc_rules r) "notes" = some old) ∧
    (qcNotes r ≠ [] →
      lookupA (apply_qc_rules r) "notes" =
        some (pyStrip (old ++ (if old = "" then "" else " ") ++ joinSemi (qcNotes r))) ∧
      (startsWithWS old = false →
        strIsPre old (getNotes (apply_qc_rules r)) = true)) := by
  have hpn : lookupA (qcPipeline r).1 "notes" = some old := by
    rw [qcPipeline_notes_pres]
    exact hold
  constructor
  · intro hql
    have hid : qcAppendNotes (qcPipeline r) = (qcPipeline r).1 := qcAppendNotes_empty _ hql
    unfold apply_qc_rules
    rw [lookup_norm_free _ (by decide) (by decide), hid, hpn]
    rfl
  · intro hne
    have happ := qcAppendNotes_notes (qcPipeline r) hne
    rw [show (qcPipeline r).2 = qcNotes r from rfl, hpn] at happ
    simp only [Option.getD_some] at happ
    have hfin : lookupA (apply_qc_rules r) "notes" =
        some (pyStrip (old ++ (if old = "" then "" else " ") ++ joinSemi (qcNotes r))) := by
      unfold apply_qc_rules
      rw [lookup_norm_free _ (by decide) (by decide), happ]
      rfl
    refine ⟨hfin, ?_⟩
    intro hws
    unfold getNotes
    rw [hfin, Option.getD_some]
    by_cases hoe : old = ""
    · subst hoe
      exact strIsPre_nil _
    · obtain ⟨⟨cj, hcj, hwj⟩, hjlast⟩ := joinSemi_shape (qcNotes r) hne (qcNotes_shape r)
      cases hod : old.data with
      | nil =>
        refine absurd ?_ hoe
        cases old with
        | mk d =>
          show String.mk d = ""
          rw [show d = [] from hod]
      | cons c0 ct =>
        have hw0 : c0.isWhitespace = false := by
          unfold startsWithWS at hws
          rw [hod] at hws
          simpa using hws
        have hbighead : ((old ++ (if old = "" then "" else " ")) ++
            joinSemi (qcNotes r)).data.head? = some c0 := by
          rw [String.data_append, String.data_append, hod]
          rfl
        have hbiglast : ((old ++ (if old = "" then "" else " ")) ++
            joinSemi (qcNotes r)).data.getLast? = some '.' := by
          rw [String.data_append, List.getLast?_append, hjlast]
          rfl
        have hself := pyStripL_eq_self hbighead hw0 hbiglast (by decide)
        have hstrip : pyStrip ((old ++ (if old = "" then "" else " ")) ++ joinSemi (qcNotes r)) =
            (old ++ (if old = "" then "" else " ")) ++ joinSemi (qcNotes r) := by
          unfold pyStrip
          rw [hself]
        rw [hstrip]
        unfold strIsPre
        rw [String.data_append, String.data_append]
        rw [ List.isPrefixOf_iff_prefix]
        rw [List.append_assoc]
        exact List.prefix_append _ _

/-- A complete, enum-valid excluded record whose notes begin with a
whitespace character. -/
def recWS : Rec :=
  dset (normalise_row [("scope_decision","Exclude"),("evidence_quality","High")]) "notes" " x"

/-- Counterexample to C7 as stated: on this complete, enum-valid record
the input notes " x" is not a prefix of the QC output's notes field,
because the write-back strips leading whitespace. -/
theorem notes_prefix_cex :
    completeB recWS = true ∧ enumValidB recWS = true ∧
    lookupA recWS "notes" = some " x" ∧
    lookupA (apply_qc_rules recWS) "notes" =
      some "x Excluded (scope): axes & outcomes set to NA." ∧
    strIsPre " x" (getNotes (apply_qc_rules recWS)) = false := by
  decide

/-- Witness for the amended C7 at the excluded scenario record (empty
prior notes). -/
theorem notes_appended_witness :
    lookupA (apply_qc_rules recScope) "notes" =
      some (pyStrip ("" ++ (if ("" : String) = "" then "" else " ") ++ joinSemi (qcNotes recScope))) ∧
    strIsPre "" (getNotes (apply_qc_rules recScope)) = true := by
  have h := (@notes_appended recScope (by decide) (by decide) "" (by decide)).2 (by decide)
  exact ⟨h.1, h.2 (by decide)⟩

/-- Modelled from the spec: the source file exposes no registry API —
`COLUMNS` and `ENUMS` are plain tables read directly by `normalise_row`
— so the Field Schema Registry error of spec section 7 is modelled here
from the spec's words. -/
inductive RegistryError where
  | UnknownFieldError

/-- Modelled from the spec: `fallback_for(field_name) -> value`, total
for registered field names, failing with `UnknownFieldError` otherwise;
the fallback values follow the source's fallback chain. -/
def fallback_for (f : String) : Except RegistryError String :=
  if f ∈ COLUMNS then .ok (fallbackChain f "") else .error .UnknownFieldError

/-- Modelled from the spec: `allowed_values(field_name) -> set-or-none`,
failing with `UnknownFieldError` on unregistered names. -/
def allowed_values (f : String) : Except RegistryError (Option (List String)) :=
  if f ∈ COLUMNS then .ok (lookupA ENUMS f) else .error .UnknownFieldError

/-- Modelled from the spec: `is_enumerated(field_name) -> bool`, failing
with `UnknownFieldError` on unregistered names. -/
def is_enumerated (f : String) : Except RegistryError Bool :=
  if f ∈ COLUMNS then .ok (lookupA ENUMS f).isSome else .error .UnknownFieldError

/-- C9: Unknown-field error — querying the registry operations with a
field name outside the registered set fails with UnknownFieldError
rather than returning a default. -/
theorem registry_unknown_field (f : String) (h : f ∉ COLUMNS) :
    fallback_for f = .error .UnknownFieldError ∧
    allowed_values f = .error .UnknownFieldError ∧
    is_enumerated f = .error .UnknownFieldError := by
  unfold fallback_for allowed_values is_enumerated
  rw [if_neg h, if_neg h, if_neg h]
  exact ⟨rfl, rfl, rfl⟩

/-- Witness for C9 at a concrete unregistered field name. -/
theorem registry_unknown_field_witness :
    fallback_for "bogus_field" = .error .UnknownFieldError ∧
    allowed_values "bogus_field" = .error .UnknownFieldError ∧
    is_enumerated "bogus_field" = .error .UnknownFieldError :=
  registry_unknown_field "bogus_field" (by decide)

/-- C10: apply_qc_rules is not idempotent — on the complete, enum-valid
excluded scenario record, a second application appends the scope-rule
annotation again, so the double application differs from the single
one. -/
theorem apply_qc_not_idem :
    completeB recScope = true ∧ enumValidB recScope = true ∧
    getNotes (apply_qc_rules recScope) = "Excluded (scope): axes & outcomes set to NA." ∧
    getNotes (apply_qc_rules (apply_qc_rules recScope)) =
      "Excluded (scope): axes & outcomes set to NA. Excluded (scope): axes & outcomes set to NA." ∧
    apply_qc_rules (apply_qc_rules recScope) ≠ apply_qc_rules recScope := by
  decide
